import Mathlib

/-!
Verification of the event-parsing and metric pipeline of the
`agent-instability-notes` repository.

The development shallowly embeds the three Python source files:

* `scripts/compute_metrics_from_jsonl.py` — the `Event` accessor layer,
  the optionally-capped loader, the session grouper, and the four metric
  functions (relative latency gaps, recovery turn distances,
  post-correction relapse rate, session closure classification);
* `scripts/trace_tree_sanity_checks.py` — the timestamp accessor and the
  per-session timestamp monotonicity check;
* `synthetic_traces/generate_synthetic_traces.py` — the
  `simple_correction_loop` session generator, with its random draws made
  an explicit input stream.

JSON values are modelled by the inductive `JVal`; Python numerics are
modelled exactly (ints as `Int`, floats as `ℚ`).  Every definition is a
direct transcription of the corresponding Python function; comments note
the few places where textual renderings that no verified function ever
inspects (e.g. `str()` of a dict) are abstracted.
-/

namespace AIN

/-- A parsed JSON value.  Python `None`/JSON `null` is `JVal.null`;
JSON numbers are split into integers and non-integers the way Python's
`json` module does (`int` vs `float`); objects are association lists
(the keys of an object produced by `json.loads` are unique). -/
inductive JVal where
  | null : JVal
  | bool : Bool → JVal
  | int : Int → JVal
  | rat : ℚ → JVal
  | str : String → JVal
  | arr : List JVal → JVal
  | obj : List (String × JVal) → JVal

/-- A JSON object: what `json.loads` returns for one well-formed line. -/
abbrev Obj := List (String × JVal)

/-- Raw key lookup in a JSON object: `none` iff the key is absent
(a stored JSON `null` is returned as `some JVal.null`). -/
def jGet : Obj → String → Option JVal
  | [], _ => none
  | (k, v) :: rest, key => if k == key then some v else jGet rest key

/-- Python `dict.get(key)` (no default): both an absent key and a stored
JSON `null` yield Python `None`, modelled as `none`. -/
def pyGet (o : Obj) (key : String) : Option JVal :=
  match jGet o key with
  | some JVal.null => none
  | r => r

/-- Python `dict.get(key, default)`: the default is used only when the
key is absent; a stored `null` is returned as-is. -/
def pyGetD (o : Obj) (key : String) (d : JVal) : JVal :=
  (jGet o key).getD d

/-- Python truthiness of a JSON value (`bool(v)`). -/
def pyTruthy : JVal → Bool
  | JVal.null => false
  | JVal.bool b => b
  | JVal.int n => n != 0
  | JVal.rat q => q != 0
  | JVal.str s => s != ""
  | JVal.arr l => !l.isEmpty
  | JVal.obj l => !l.isEmpty

/-- Python `x or y` over optional JSON values (`none` = Python `None`). -/
def pyOr (a b : Option JVal) : Option JVal :=
  match a with
  | some v => if pyTruthy v then some v else b
  | none => b

/-- Python `str(v)`.  The renderings of containers and floats are
abstracted to fixed placeholders: no verified code path ever observes
them (string fields of well-formed records are `JVal.str`, and the other
renderings can never collide with the literal tags the metrics compare
against). -/
def pyStr : JVal → String
  | JVal.null => "None"
  | JVal.bool true => "True"
  | JVal.bool false => "False"
  | JVal.int n => toString n
  | JVal.rat q => toString q
  | JVal.str s => s
  | JVal.arr _ => "<list>"
  | JVal.obj _ => "<dict>"

/-- Value of a nonempty list of decimal digit characters. -/
def digitsToNat? (cs : List Char) : Option Nat :=
  if cs.isEmpty then none
  else if cs.all Char.isDigit then
    some (cs.foldl (fun acc c => acc * 10 + (c.toNat - '0'.toNat)) 0)
  else none

/-- Python `int(s)` for a string: strips surrounding whitespace, accepts
an optional sign followed by decimal digits.  (Underscore separators and
other bases are not modelled; no claim depends on them.) -/
def parseInt? (s : String) : Option Int :=
  match s.trim.toList with
  | '-' :: cs => (digitsToNat? cs).map (fun n => -(n : Int))
  | '+' :: cs => (digitsToNat? cs).map (fun n => (n : Int))
  | cs => (digitsToNat? cs).map (fun n => (n : Int))

/-- Unsigned decimal literal with optional fractional part. -/
def parseUnsignedFloat? (cs : List Char) : Option ℚ :=
  let intPart := cs.takeWhile Char.isDigit
  let rest := cs.drop intPart.length
  match rest with
  | [] => (digitsToNat? intPart).map (fun n => (n : ℚ))
  | '.' :: frac =>
    if frac.all Char.isDigit ∧ (intPart ≠ [] ∨ frac ≠ []) then
      let ip : ℚ := ((intPart.foldl (fun acc c => acc * 10 + (c.toNat - '0'.toNat)) 0 : Nat) : ℚ)
      let fp : ℚ := ((frac.foldl (fun acc c => acc * 10 + (c.toNat - '0'.toNat)) 0 : Nat) : ℚ)
      some (ip + fp / (10 : ℚ) ^ frac.length)
    else none
  | _ => none

/-- Python `float(s)` for a string: optional sign and a decimal literal
with optional fractional part.  (Exponent, `inf`/`nan` forms are not
modelled; no claim depends on them.) -/
def parseFloat? (s : String) : Option ℚ :=
  match s.trim.toList with
  | '-' :: cs => (parseUnsignedFloat? cs).map Neg.neg
  | '+' :: cs => parseUnsignedFloat? cs
  | cs => parseUnsignedFloat? cs

/-- Truncation toward zero, as Python `int(float)`. -/
def ratTrunc (q : ℚ) : Int :=
  if 0 ≤ q then ⌊q⌋ else ⌈q⌉

/-- Python `float(v)` with `TypeError`/`ValueError` mapped to `none`. -/
def pyFloat? : JVal → Option ℚ
  | JVal.int n => some (n : ℚ)
  | JVal.rat q => some q
  | JVal.bool b => some (if b then 1 else 0)
  | JVal.str s => parseFloat? s
  | _ => none

/-- Python `int(v)` with `TypeError`/`ValueError` mapped to `none`. -/
def pyInt? : JVal → Option Int
  | JVal.int n => some n
  | JVal.rat q => some (ratTrunc q)
  | JVal.bool b => some (if b then 1 else 0)
  | JVal.str s => parseInt? s
  | _ => none

/-- The `Event` dataclass of both analysis scripts: a wrapper around one
parsed JSON object.  The two scripts declare structurally identical
wrappers; the union of their accessors is defined on this single type. -/
structure Event where
  raw : Obj

/-- `Event.trace_id`: `str(self.raw.get("trace_id", ""))`. -/
def Event.trace_id (e : Event) : String :=
  pyStr (pyGetD e.raw "trace_id" (JVal.str ""))

/-- `Event.event_type`: `str(self.raw.get("event_type", ""))`. -/
def Event.event_type (e : Event) : String :=
  pyStr (pyGetD e.raw "event_type" (JVal.str ""))

/-- `Event.component`: `str(self.raw.get("component", ""))`. -/
def Event.component (e : Event) : String :=
  pyStr (pyGetD e.raw "component" (JVal.str ""))

/-- `Event.span_id`: `str(self.raw.get("span_id", ""))`. -/
def Event.span_id (e : Event) : String :=
  pyStr (pyGetD e.raw "span_id" (JVal.str ""))

/-- `Event.phase`: read top-level `"phase"`; if that is `None`, and the
legacy `"pld"` field is a dict, read `"phase"` from it.  (The code never
consults the `"payload"` field here.) -/
def Event.phase (e : Event) : Option JVal :=
  match pyGet e.raw "phase" with
  | some v => some v
  | none =>
    match jGet e.raw "pld" with
    | some (JVal.obj flds) => pyGet flds "phase"
    | _ => none

/-- `Event.payload`: the `"payload"` field if it is a dict, else `{}`. -/
def Event.payload (e : Event) : Obj :=
  match jGet e.raw "payload" with
  | some (JVal.obj flds) => flds
  | _ => []

/-- `Event.latency_ms`: `float(payload.get("latency_ms"))`, `None` on
absence or coercion failure. -/
def Event.latency_ms (e : Event) : Option ℚ :=
  match pyGet e.payload "latency_ms" with
  | none => none
  | some v => pyFloat? v

/-- `Event.turn`: `int(payload.get("turn") or raw.get("turn"))`, `None`
when the `or`-chain yields `None` or the coercion fails.  Note the
Python `or`: a falsy payload value (0, "") falls through to the
top-level field. -/
def Event.turn (e : Event) : Option Int :=
  match pyOr (pyGet e.payload "turn") (pyGet e.raw "turn") with
  | none => none
  | some v => pyInt? v

/-!  Loader (`load_events` of `compute_metrics_from_jsonl.py`).

The file is modelled after lexical processing: each physical line is
either `none` (blank, or failed `json.loads` — both silently skipped)
or `some obj`, one parsed JSON object. -/

/-- One input line after stripping / JSON parsing. -/
abbrev Line := Option Obj

/-- Add to the mutable `seen_traces` set, modelled as a duplicate-free
list. -/
def insertSeen (seen : List String) (t : String) : List String :=
  if t ∈ seen then seen else t :: seen

/-- The loader loop.  Mirrors the Python `for line in f` body: the
`break` fires when `len(seen_traces) > max_sessions`, *before* the
`events.append(ev)` of the record that pushed the count past the cap.
The Python append-accumulator is rendered as in-order `cons`
recursion. -/
def loadEventsAux : List Line → Option Nat → List String → List Event
  | [], _, _ => []
  | none :: rest, cap, seen => loadEventsAux rest cap seen
  | some obj :: rest, cap, seen =>
    let ev : Event := ⟨obj⟩
    let tid := ev.trace_id
    if tid == "" then
      ev :: loadEventsAux rest cap seen
    else
      let seen' := insertSeen seen tid
      match cap with
      | some n =>
        if n < seen'.length then []
        else ev :: loadEventsAux rest cap seen'
      | none => ev :: loadEventsAux rest cap seen'

/-- `load_events(path, max_sessions)`: the returned ordered record list. -/
def load_events (lines : List Line) (max_sessions : Option Nat) : List Event :=
  loadEventsAux lines max_sessions []

/-- The non-empty `trace_id` values of a record list, in order. -/
def tidList (events : List Event) : List String :=
  (events.map Event.trace_id).filter (fun t => t != "")

/-- The distinct non-empty `trace_id` values of a record list. -/
def distinctTraceIds (events : List Event) : List String :=
  (tidList events).dedup

/-!  Session grouper (`group_by_trace`).  A `defaultdict(list)` keyed by
`trace_id`, insertion order of first key appearance preserved, is an
association list to which each record is appended under its key. -/

/-- The grouped sessions: insertion-ordered association list. -/
abbrev Traces := List (String × List Event)

/-- Append one record under its key, creating the key at the end on
first appearance (Python dict insertion order). -/
def insertGroup : Traces → String → Event → Traces
  | [], t, ev => [(t, [ev])]
  | (k, evs) :: rest, t, ev =>
    if k == t then (k, evs ++ [ev]) :: rest
    else (k, evs) :: insertGroup rest t ev

/-- `group_by_trace(events)`. -/
def group_by_trace (events : List Event) : Traces :=
  events.foldl (fun acc ev => insertGroup acc ev.trace_id ev) []

/-- `traces.values()` in iteration order. -/
def tracesValues (traces : Traces) : List (List Event) :=
  traces.map Prod.snd

/-!  Metric 1: relative latency gaps. -/

/-- The per-session loop of `compute_relative_latency_gaps`: `prev`
holds the last defined latency; each further defined latency `lat`
appends `|prev - lat| / max(prev, lat, 1.0)`. -/
def latencyGapsAux : List Event → Option ℚ → List ℚ
  | [], _ => []
  | ev :: rest, prev =>
    match ev.latency_ms with
    | none => latencyGapsAux rest prev
    | some lat =>
      match prev with
      | none => latencyGapsAux rest (some lat)
      | some p => (|p - lat| / max (max p lat) 1) :: latencyGapsAux rest (some lat)

/-- `compute_relative_latency_gaps(traces)`: one flat distribution over
all sessions, `prev` reset per session. -/
def compute_relative_latency_gaps (traces : Traces) : List ℚ :=
  (tracesValues traces).flatMap (fun evs => latencyGapsAux evs none)

/-!  Metric 2: recovery turn distances. -/

/-- `event_type == "drift_like"`. -/
def isDriftLike (ev : Event) : Bool :=
  ev.event_type == "drift_like"

/-- `payload.get("stability_tag") == "recovered"` (a Python `==` against
a string literal: true only for that exact string value). -/
def isRecoveredTag (ev : Event) : Bool :=
  match pyGet ev.payload "stability_tag" with
  | some (JVal.str s) => s == "recovered"
  | _ => false

/-- The per-session loop of `compute_recovery_turn_distances`:
`onset_turn` is `none` in the idle state.  A drift-like record seen
while idle records `ev.turn or 0` and is itself not scanned for the
recovery tag (`continue`); while an onset is pending, the first record
whose `stability_tag` is `"recovered"` emits
`max(0, end_turn - onset_turn)` (with `end_turn` defaulting to the
onset) and clears the onset. -/
def recoveryAux : List Event → Option Int → List Int
  | [], _ => []
  | ev :: rest, onset =>
    if onset.isNone ∧ isDriftLike ev then
      recoveryAux rest (some (ev.turn.getD 0))
    else
      match onset with
      | some o =>
        if isRecoveredTag ev then
          max 0 ((ev.turn.getD o) - o) :: recoveryAux rest none
        else recoveryAux rest (some o)
      | none => recoveryAux rest none

/-- `compute_recovery_turn_distances(traces)`. -/
def compute_recovery_turn_distances (traces : Traces) : List Int :=
  (tracesValues traces).flatMap (fun evs => recoveryAux evs none)

/-!  Metric 3: post-correction relapse rate. -/

/-- `event_type in ("correction", "self_check")`. -/
def isCorrection (ev : Event) : Bool :=
  ev.event_type == "correction" || ev.event_type == "self_check"

/-- The per-session loop of `compute_post_correction_relapse_rate`,
returning the final `(had_correction, relapsed)` flags; the `break` on
the first post-correction drift-like record is the early return. -/
def relapseSessionAux : List Event → Bool → Bool → Bool × Bool
  | [], had, rel => (had, rel)
  | ev :: rest, had, rel =>
    if !had ∧ isCorrection ev then relapseSessionAux rest true rel
    else if had ∧ isDriftLike ev then (had, true)
    else relapseSessionAux rest had rel

/-- `compute_post_correction_relapse_rate(traces)` =
`(with_relapse, with_correction)`. -/
def compute_post_correction_relapse_rate (traces : Traces) : Nat × Nat :=
  (tracesValues traces).foldl
    (fun acc evs =>
      let flags := relapseSessionAux evs false false
      if flags.1 then
        (if flags.2 then acc.1 + 1 else acc.1, acc.2 + 1)
      else acc)
    (0, 0)

/-!  Metric 4: session closure profile. -/

/-- The fixed `CLOSURE_LABELS` lookup table. -/
def CLOSURE_LABELS : List (String × String) :=
  [("ok", "natural_completion"),
   ("completed_after_correction", "completed_after_correction"),
   ("corrected", "completed_after_correction"),
   ("incomplete", "incomplete"),
   ("error", "forced_stop")]

/-- `dict.get` over a literal string-to-string table. -/
def assocGetStr : List (String × String) → String → Option String
  | [], _ => none
  | (k, v) :: rest, key => if k == key then some v else assocGetStr rest key

/-- `str(payload.get(key, "")).strip()` for the last record. -/
def closureField (last : Event) (key : String) : String :=
  (pyStr (pyGetD last.payload key (JVal.str ""))).trim

/-- `s or None` for a string. -/
def strOrNone (s : String) : Option String :=
  if s == "" then none else some s

/-- The `for key in (status or None, final_status or None, pattern or
None)` loop: skip `None`/empty keys, return the first truthy mapped
label.  (The `if label:` falsy check on an empty label string is kept
even though the table contains none.) -/
def closureKeyLoop : List (Option String) → Option String
  | [] => none
  | none :: rest => closureKeyLoop rest
  | some k :: rest =>
    if k == "" then closureKeyLoop rest
    else
      match assocGetStr CLOSURE_LABELS k with
      | some l => if l == "" then closureKeyLoop rest else some l
      | none => closureKeyLoop rest

/-- `classify_session_closure(events)`. -/
def classify_session_closure (events : List Event) : String :=
  match events.getLast? with
  | none => "unknown"
  | some last =>
    match closureKeyLoop
        [strOrNone (closureField last "status"),
         strOrNone (closureField last "final_status"),
         strOrNone (closureField last "pattern")] with
    | some l => l
    | none =>
      if last.event_type == "session_end" then "session_end_generic"
      else if last.component == "user" then "user_abandonment"
      else "unknown"

/-!  Structural checks (`trace_tree_sanity_checks.py`). -/

/-- Gregorian leap year, as `datetime` uses. -/
def isLeapYear (y : Nat) : Bool :=
  y % 4 == 0 && (y % 100 != 0 || y % 400 == 0)

/-- Length of a month, for the range validation `fromisoformat`
performs. -/
def daysInMonth (y mo : Nat) : Nat :=
  if mo == 2 then (if isLeapYear y then 29 else 28)
  else if mo == 4 || mo == 6 || mo == 9 || mo == 11 then 30
  else 31

/-- Exactly `k` decimal digits from the front of the stream. -/
def takeDigits (k : Nat) (cs : List Char) : Option (Nat × List Char) :=
  let ds := cs.take k
  if ds.length == k && ds.all Char.isDigit then
    some (ds.foldl (fun acc c => acc * 10 + (c.toNat - '0'.toNat)) 0, cs.drop k)
  else none

/-- One expected literal character. -/
def expectChar (c : Char) : List Char → Option (List Char)
  | [] => none
  | x :: rest => if x == c then some rest else none

/-- A naive datetime as a single order-preserving code: the fields
`(year, month, day, hour, minute, second, microsecond)` packed
positionally.  Since every field is validated to its range, the numeric
order of codes coincides with `datetime`'s lexicographic order. -/
def encodeDT (y mo d h mi s us : Nat) : Nat :=
  (((((y * 13 + mo) * 32 + d) * 24 + h) * 60 + mi) * 60 + s) * 1000000 + us

/-- `datetime.fromisoformat` on the grammar
`YYYY-MM-DD[(T| )HH:MM[:SS[.fff[fff]]]]`, with field-range validation
(month, month-length-aware day, hour, minute, second); `none` on any
parse failure.  UTC-offset suffixes are not modelled: an aware datetime
would make the later `<` comparison raise, and no input under test
carries one (the loader strips the generator's trailing `"Z"` before
parsing). -/
def parseIsoDatetime (s : String) : Option Nat := do
  let cs := s.toList
  let (y, cs) ← takeDigits 4 cs
  let cs ← expectChar '-' cs
  let (mo, cs) ← takeDigits 2 cs
  let cs ← expectChar '-' cs
  let (d, cs) ← takeDigits 2 cs
  if mo < 1 ∨ 12 < mo then none
  else if d < 1 ∨ daysInMonth y mo < d then none
  else
    match cs with
    | [] => some (encodeDT y mo d 0 0 0 0)
    | sep :: cs =>
      if sep ≠ 'T' ∧ sep ≠ ' ' then none
      else do
        let (h, cs) ← takeDigits 2 cs
        let cs ← expectChar ':' cs
        let (mi, cs) ← takeDigits 2 cs
        if 23 < h ∨ 59 < mi then none
        else
          match cs with
          | [] => some (encodeDT y mo d h mi 0 0)
          | ':' :: cs => do
            let (sec, cs) ← takeDigits 2 cs
            if 59 < sec then none
            else
              match cs with
              | [] => some (encodeDT y mo d h mi sec 0)
              | '.' :: frac =>
                if frac.length == 3 && frac.all Char.isDigit then
                  match takeDigits 3 frac with
                  | some (f, _) => some (encodeDT y mo d h mi sec (f * 1000))
                  | none => none
                else if frac.length == 6 && frac.all Char.isDigit then
                  match takeDigits 6 frac with
                  | some (f, _) => some (encodeDT y mo d h mi sec f)
                  | none => none
                else none
              | _ => none
          | _ => none

/-- `Event.timestamp` of the sanity-check script: `None` unless the raw
field is a string; a trailing `"Z"` is stripped before parsing. -/
def Event.timestamp (e : Event) : Option Nat :=
  match jGet e.raw "timestamp" with
  | some (JVal.str s) =>
    let cs := s.toList
    let cs := if cs.getLast? == some 'Z' then cs.dropLast else cs
    parseIsoDatetime (String.mk cs)
  | _ => none

/-- The loop of `check_timestamp_monotonicity`: `prev` is the last
parseable timestamp (never reset by unparseable ones); a parseable
timestamp strictly below `prev` counts one violation and still becomes
the new `prev`. -/
def tsMonotonicityAux : List Event → Option Nat → Nat → Nat
  | [], _, v => v
  | ev :: rest, prev, v =>
    match ev.timestamp with
    | none => tsMonotonicityAux rest prev v
    | some ts =>
      match prev with
      | some p => tsMonotonicityAux rest (some ts) (if ts < p then v + 1 else v)
      | none => tsMonotonicityAux rest (some ts) v

/-- `check_timestamp_monotonicity(events)` =
`(is_monotonic, violations)`. -/
def check_timestamp_monotonicity (events : List Event) : Bool × Nat :=
  let v := tsMonotonicityAux events none 0
  (v == 0, v)

/-!  Generator (`generate_synthetic_traces.py`, variant
`simple_correction_loop`).

Randomness is made explicit: `draws k` is the `k`-th value the `random`
module returns during one call of
`generate_simple_correction_loop_session`, in Python evaluation order
(the base-time `randint(0, 60)` first; within each step the payload's
latency `randint` is evaluated before the inter-event gap `randint`
inside `emit`).  No range constraint is imposed, so every theorem below
covers every possible outcome of the draws. -/

/-- The generator's `Event` dataclass.  `timestamp` is kept as integer
milliseconds relative to the fixed base `datetime(2025, 1, 1, 10, 0, 0)`
(the `timedelta` arithmetic is exact integer arithmetic). -/
structure GenEvent where
  timestamp : Int
  trace_id : String
  span_id : String
  component : String
  event_type : String
  execution_stage : String
  payload : Obj

/-- `f"{n:0wd}"`: decimal, zero-padded to width `w`. -/
def zfill (w : Nat) (n : Nat) : String :=
  let s := toString n
  String.mk (List.replicate (w - s.length) '0') ++ s

/-- `Event.to_json` of the generator, as the object the metrics script
would parse back from the emitted line.  The ISO rendering of the
timestamp is abstracted to an integer rendering: the metric script's
accessor layer has no timestamp accessor, so no verified consumer ever
inspects this text. -/
def GenEvent.to_json (g : GenEvent) : Obj :=
  [("timestamp", JVal.str (toString g.timestamp ++ "Z")),
   ("trace_id", JVal.str g.trace_id),
   ("span_id", JVal.str g.span_id),
   ("component", JVal.str g.component),
   ("event_type", JVal.str g.event_type),
   ("execution_stage", JVal.str g.execution_stage),
   ("payload", JVal.obj g.payload)]

/-- `generate_simple_correction_loop_session(trace_idx)`: the seven
events of one correction-loop session, with the random draws threaded
in evaluation order (`draws 0` = base-time offset in seconds; gaps at
draws 1, 2, 4, 6, 8, 10, 11; latencies at draws 3, 5, 7, 9). -/
def generate_simple_correction_loop_session
    (trace_idx : Nat) (draws : Nat → Int) : List GenEvent :=
  let tid := "loop_" ++ zfill 3 trace_idx
  let t0 : Int := 1000 * draws 0
  let t1 := t0 + draws 1
  let t2 := t1 + draws 2
  let t3 := t2 + draws 4
  let t4 := t3 + draws 6
  let t5 := t4 + draws 8
  let t6 := t5 + draws 10
  let t7 := t6 + draws 11
  [⟨t1, tid, tid ++ "_s" ++ zfill 4 1, "system", "session_init", "init",
    [("session_id", JVal.str ("sess_" ++ tid))]⟩,
   ⟨t2, tid, tid ++ "_s" ++ zfill 4 2, "user", "user_message", "input",
    [("turn", JVal.int 1),
     ("content", JVal.str "Create a short checklist with exactly 3 items.")]⟩,
   ⟨t3, tid, tid ++ "_s" ++ zfill 4 3, "agent", "agent_step", "processing",
    [("turn", JVal.int 1),
     ("latency_ms", JVal.int (draws 3)),
     ("summary", JVal.str "Initial 3-item checklist created.")]⟩,
   ⟨t4, tid, tid ++ "_s" ++ zfill 4 4, "agent", "drift_like", "processing",
    [("turn", JVal.int 2),
     ("latency_ms", JVal.int (draws 5)),
     ("note", JVal.str "Checklist grows to 6 items, constraint partially dropped.")]⟩,
   ⟨t5, tid, tid ++ "_s" ++ zfill 4 5, "agent", "correction", "recovery",
    [("turn", JVal.int 3),
     ("kind", JVal.str "self_check"),
     ("latency_ms", JVal.int (draws 7)),
     ("note", JVal.str "Re-read instruction and compress back to 3 items.")]⟩,
   ⟨t6, tid, tid ++ "_s" ++ zfill 4 6, "agent", "agent_step", "output",
    [("turn", JVal.int 4),
     ("latency_ms", JVal.int (draws 9)),
     ("summary", JVal.str "3-item checklist, constraints respected."),
     ("stability_tag", JVal.str "recovered")]⟩,
   ⟨t7, tid, tid ++ "_s" ++ zfill 4 7, "system", "session_end", "complete",
    [("turns", JVal.int 4),
     ("instability_signals", JVal.int 1),
     ("corrections", JVal.int 1),
     ("final_status", JVal.str "completed_after_correction")]⟩]

/-- The generated session as the metrics script re-parses it: one
`Event` per emitted line. -/
def generatedLoopEvents (trace_idx : Nat) (draws : Nat → Int) : List Event :=
  (generate_simple_correction_loop_session trace_idx draws).map
    (fun g => Event.mk g.to_json)

/-!  ## Theorems -/

/-- Claim C2, counterexample: a record whose `payload` is a mapping
containing `"phase"`, with no top-level `"phase"` and no `"pld"`.  The
claim predicts the accessor returns `payload.phase` (here
`"planning"`); the code returns `None`, because the fallback reads only
the legacy `"pld"` field. -/
theorem phase_payload_fallback_refuted :
    pyGet [("payload", JVal.obj [("phase", JVal.str "planning")])] "phase" = none ∧
    jGet [("payload", JVal.obj [("phase", JVal.str "planning")])] "payload"
      = some (JVal.obj [("phase", JVal.str "planning")]) ∧
    Event.phase ⟨[("payload", JVal.obj [("phase", JVal.str "planning")])]⟩ = none :=
  ⟨rfl, rfl, rfl⟩

/-- Claim C2, amended: the phase accessor returns the top-level `phase`
value when present (and non-null); when it is absent it returns
`pld.phase` whenever the legacy `pld` field is itself a mapping; in all
other cases — including when `payload` is a mapping containing a
`phase` — it returns `None`. -/
theorem phase_accessor_characterization (raw : Obj) :
    (∀ v, pyGet raw "phase" = some v → Event.phase ⟨raw⟩ = some v) ∧
    (pyGet raw "phase" = none →
      ∀ flds, jGet raw "pld" = some (JVal.obj flds) →
        Event.phase ⟨raw⟩ = pyGet flds "phase") ∧
    (pyGet raw "phase" = none →
      (∀ flds, jGet raw "pld" ≠ some (JVal.obj flds)) →
      Event.phase ⟨raw⟩ = none) := by
  refine ⟨fun v hv => ?_, fun h0 flds hp => ?_, fun h0 hnp => ?_⟩
  · simp [Event.phase, hv]
  · simp [Event.phase, h0, hp]
  · rw [Event.phase]
    rw [h0]
    cases hp : jGet raw "pld" with
    | none => rfl
    | some v =>
      cases v with
      | obj flds => exact absurd hp (hnp flds)
      | null => rfl
      | bool b => rfl
      | int n => rfl
      | rat q => rfl
      | str s => rfl
      | arr l => rfl

/-- Witness for C2's amended theorem: the legacy `pld` fallback at a
concrete record. -/
theorem phase_accessor_witness :
    Event.phase ⟨[("pld", JVal.obj [("phase", JVal.str "exec")])]⟩
      = some (JVal.str "exec") := by
  have h := (phase_accessor_characterization
    [("pld", JVal.obj [("phase", JVal.str "exec")])]).2.1 rfl
    [("phase", JVal.str "exec")] rfl
  simpa using h

/-- Claim C10: a falsy `payload.turn` (0, empty string, …) is skipped by
the Python `or`, so the accessor returns the integer coercion of the
top-level `turn` field (`None` when that is absent or uncoercible) —
a genuine payload turn of 0 is never observed. -/
theorem turn_accessor_falsy_payload (e : Event) (v : JVal)
    (hp : pyGet e.payload "turn" = some v) (hf : pyTruthy v = false) :
    Event.turn e = (pyGet e.raw "turn").bind pyInt? := by
  rw [Event.turn, hp]
  have hor : pyOr (some v) (pyGet e.raw "turn") = pyGet e.raw "turn" := by
    simp [pyOr, hf]
  rw [hor]
  cases h : pyGet e.raw "turn" <;> simp

/-- Witness for C10: payload turn 0 with top-level turn 7 yields 7. -/
theorem turn_accessor_witness :
    Event.turn ⟨[("turn", JVal.int 7), ("payload", JVal.obj [("turn", JVal.int 0)])]⟩
      = some 7 :=
  (turn_accessor_falsy_payload
    ⟨[("turn", JVal.int 7), ("payload", JVal.obj [("turn", JVal.int 0)])]⟩
    (JVal.int 0) rfl rfl).trans rfl

/-- Claim C6: for a two-record session whose records carry latencies
`a` and `b` (both positive), the single computed gap is
`|a - b| / max(a, b, 1)`, and swapping the two records leaves it
unchanged. -/
theorem relative_latency_gap_two_records (e1 e2 : Event) (a b : ℚ)
    (h1 : e1.latency_ms = some a) (h2 : e2.latency_ms = some b)
    (ha : 0 < a) (hb : 0 < b) :
    compute_relative_latency_gaps [("s", [e1, e2])]
      = [|a - b| / max (max a b) 1] ∧
    compute_relative_latency_gaps [("s", [e2, e1])]
      = [|a - b| / max (max a b) 1] := by
  constructor
  · simp [compute_relative_latency_gaps, tracesValues, latencyGapsAux, h1, h2]
  · simp [compute_relative_latency_gaps, tracesValues, latencyGapsAux, h1, h2]
    rw [abs_sub_comm, max_comm b a]

/-- Witness for C6 at latencies 2 and 3. -/
theorem relative_latency_gap_witness :
    compute_relative_latency_gaps
        [("s", [⟨[("payload", JVal.obj [("latency_ms", JVal.int 2)])]⟩,
                ⟨[("payload", JVal.obj [("latency_ms", JVal.int 3)])]⟩])]
      = [|(2 : ℚ) - 3| / max (max 2 3) 1] ∧
    compute_relative_latency_gaps
        [("s", [⟨[("payload", JVal.obj [("latency_ms", JVal.int 3)])]⟩,
                ⟨[("payload", JVal.obj [("latency_ms", JVal.int 2)])]⟩])]
      = [|(2 : ℚ) - 3| / max (max 2 3) 1] :=
  relative_latency_gap_two_records
    ⟨[("payload", JVal.obj [("latency_ms", JVal.int 2)])]⟩
    ⟨[("payload", JVal.obj [("latency_ms", JVal.int 3)])]⟩
    2 3 rfl rfl (by norm_num) (by norm_num)

/-!  Specification-side definitions for C3: the two-state machine of
§4.5, written as two mutually recursive functions, one per state. -/

mutual

/-- §4.5, state `idle`: a `drift_like` record transitions to
`onset-pending`, recording its turn (or 0 when undefined). -/
def recoverySpecIdle : List Event → List Int
  | [] => []
  | ev :: rest =>
    if isDriftLike ev then recoverySpecPending (ev.turn.getD 0) rest
    else recoverySpecIdle rest

/-- §4.5, state `onset-pending` with onset `o`: the first subsequent
record tagged `recovered` emits `max(0, recovered_turn - o)`
(defaulting `recovered_turn` to `o`) and returns to `idle`; a session
ending in this state emits nothing. -/
def recoverySpecPending : Int → List Event → List Int
  | _, [] => []
  | o, ev :: rest =>
    if isRecoveredTag ev then
      max 0 ((ev.turn.getD o) - o) :: recoverySpecIdle rest
    else recoverySpecPending o rest

end

/-- The loop of `compute_recovery_turn_distances` agrees with the
two-state machine, in both states. -/
theorem recoveryAux_eq_spec (evs : List Event) :
    recoveryAux evs none = recoverySpecIdle evs ∧
    ∀ o : Int, recoveryAux evs (some o) = recoverySpecPending o evs := by
  induction evs with
  | nil => exact ⟨rfl, fun _ => rfl⟩
  | cons ev rest ih =>
    constructor
    · by_cases hd : isDriftLike ev
      · simp [recoveryAux, recoverySpecIdle, hd, ih.2]
      · simp [recoveryAux, recoverySpecIdle, hd, ih.1]
    · intro o
      by_cases hr : isRecoveredTag ev
      · simp [recoveryAux, recoverySpecPending, hr, ih.1]
      · simp [recoveryAux, recoverySpecPending, hr, ih.2]

/-- Every distance the loop emits is `max 0 _`, hence nonnegative. -/
theorem recoveryAux_nonneg (evs : List Event) :
    ∀ onset : Option Int, ∀ d ∈ recoveryAux evs onset, 0 ≤ d := by
  induction evs with
  | nil => intro onset d hd; cases onset <;> simp [recoveryAux] at hd
  | cons ev rest ih =>
    intro onset d hd
    cases onset with
    | none =>
      by_cases hdl : isDriftLike ev
      · simp only [recoveryAux, Option.isNone_none, true_and, hdl, if_true] at hd
        exact ih _ d hd
      · simp only [recoveryAux, Option.isNone_none, true_and, hdl, if_false] at hd
        exact ih _ d hd
    | some o =>
      by_cases hr : isRecoveredTag ev
      · simp only [recoveryAux, Option.isNone_some, false_and, if_false, hr,
          if_true] at hd
        rcases List.mem_cons.mp hd with h | h
        · rw [h]; exact le_max_left 0 _
        · exact ih _ d h
      · simp only [recoveryAux, Option.isNone_some, false_and, if_false, hr] at hd
        exact ih _ d hd

/-- Claim C3: per session, `compute_recovery_turn_distances` is exactly
the §4.5 two-state machine (idle / onset-pending), with multiple
episodes emitted in order, a dangling onset emitting nothing, and every
emitted distance nonnegative. -/
theorem recovery_turn_distance_state_machine (traces : Traces) :
    compute_recovery_turn_distances traces
      = (tracesValues traces).flatMap recoverySpecIdle ∧
    (compute_recovery_turn_distances traces).all
      (fun d => decide (0 ≤ d)) = true := by
  constructor
  · unfold compute_recovery_turn_distances
    congr 1
    funext evs
    exact (recoveryAux_eq_spec evs).1
  · rw [List.all_eq_true]
    intro d hd
    rw [compute_recovery_turn_distances, List.mem_flatMap] at hd
    obtain ⟨evs, _, hmem⟩ := hd
    simpa using recoveryAux_nonneg evs none d hmem

/-!  Specification-side definitions for C4: declarative per-session
predicates. -/

/-- A session contains a correction-type record. -/
def hasCorrectionEvent (evs : List Event) : Bool :=
  evs.any isCorrection

/-- Some record strictly after the first correction-type record is
drift-like. -/
def hasRelapse (evs : List Event) : Bool :=
  match evs.dropWhile (fun ev => !isCorrection ev) with
  | [] => false
  | _ :: post => post.any isDriftLike

/-- After the correction flag is set, the loop's relapse flag is an
`any`-scan for a drift-like record. -/
theorem relapseSessionAux_after (evs : List Event) :
    ∀ rel : Bool, relapseSessionAux evs true rel
      = (true, rel || evs.any isDriftLike) := by
  induction evs with
  | nil => intro rel; simp [relapseSessionAux]
  | cons ev rest ih =>
    intro rel
    by_cases hd : isDriftLike ev
    · simp [relapseSessionAux, hd]
    · simp [relapseSessionAux, hd, ih]

/-- The per-session loop computes the two declarative predicates. -/
theorem relapseSessionAux_spec (evs : List Event) :
    relapseSessionAux evs false false
      = (hasCorrectionEvent evs, hasRelapse evs) := by
  induction evs with
  | nil => rfl
  | cons ev rest ih =>
    by_cases hc : isCorrection ev
    · simp [relapseSessionAux, hc, relapseSessionAux_after,
        hasCorrectionEvent, hasRelapse, List.dropWhile_cons]
    · simp [relapseSessionAux, hc, ih, hasCorrectionEvent, hasRelapse,
        List.dropWhile_cons, List.any_cons]

/-- The counter fold adds the two `countP`s to any starting pair. -/
theorem relapseFold_counts (sessions : List (List Event)) :
    ∀ a b : Nat,
      sessions.foldl
        (fun acc evs =>
          let flags := relapseSessionAux evs false false
          if flags.1 then
            (if flags.2 then acc.1 + 1 else acc.1, acc.2 + 1)
          else acc)
        (a, b)
      = (a + sessions.countP hasRelapse, b + sessions.countP hasCorrectionEvent) := by
  induction sessions with
  | nil => intro a b; simp
  | cons evs rest ih =>
    intro a b
    rw [List.foldl_cons, relapseSessionAux_spec]
    by_cases hc : hasCorrectionEvent evs = true
    · by_cases hr : hasRelapse evs = true
      · simp only [hc, hr, if_pos]
        rw [ih]
        have hrc : hasRelapse evs = true → hasCorrectionEvent evs = true := fun _ => hc
        simp [List.countP_cons, hc, hr]
        omega
      · have hr' : hasRelapse evs = false := by simpa using hr
        simp only [hc, hr', if_pos]
        rw [ih]
        simp [List.countP_cons, hc, hr']
        omega
    · have hc' : hasCorrectionEvent evs = false := by simpa using hc
      have hr' : hasRelapse evs = false := by
        rw [hasRelapse]
        rw [hasCorrectionEvent] at hc'
        rw [List.dropWhile_eq_nil_iff.mpr]
        intro x hx
        have := List.any_eq_false.mp hc' x hx
        simpa using this
      simp only [hc', hr']
      rw [ih]
      simp [List.countP_cons, hc', hr']

/-- Claim C4: `compute_post_correction_relapse_rate` returns exactly
(number of sessions with a drift-like record strictly after their first
correction-type record, number of sessions containing a correction-type
record); sessions without a correction count in neither component. -/
theorem post_correction_relapse_counts (traces : Traces) :
    compute_post_correction_relapse_rate traces
      = ((tracesValues traces).countP hasRelapse,
         (tracesValues traces).countP hasCorrectionEvent) := by
  unfold compute_post_correction_relapse_rate
  rw [relapseFold_counts]
  simp

/-!  Specification-side definition for C5: §4.7 as an ordered
precedence chain over the last record. -/

/-- §4.7: from the last record, the first of the three stripped fields
`status`, `final_status`, `pattern` that is non-empty *and* maps in the
fixed table wins; otherwise the `session_end` event-type heuristic,
then the `user` component heuristic, then `"unknown"`; an empty session
is `"unknown"`. -/
def closure_spec (events : List Event) : String :=
  match events.getLast? with
  | none => "unknown"
  | some last =>
    match ([closureField last "status",
            closureField last "final_status",
            closureField last "pattern"]).findSome?
        (fun v => if v == "" then none else assocGetStr CLOSURE_LABELS v) with
    | some l => l
    | none =>
      if last.event_type == "session_end" then "session_end_generic"
      else if last.component == "user" then "user_abandonment"
      else "unknown"

/-- Every label in the fixed table is non-empty. -/
theorem closure_label_ne_empty (k l : String)
    (h : assocGetStr CLOSURE_LABELS k = some l) : (l == "") = false := by
  simp only [CLOSURE_LABELS, assocGetStr] at h
  split_ifs at h <;>
    first
      | (obtain rfl := Option.some.inj h; decide)
      | simp at h

/-- The source's skip-and-continue key loop equals the first-match scan
of the spec. -/
theorem closureKeyLoop_eq_findSome (vs : List String) :
    closureKeyLoop (vs.map strOrNone)
      = vs.findSome? (fun v => if v == "" then none else assocGetStr CLOSURE_LABELS v) := by
  induction vs with
  | nil => rfl
  | cons v rest ih =>
    cases hv : (v == "") with
    | true =>
      have hs : strOrNone v = none := by simp [strOrNone, hv]
      simp [List.map_cons, hs, closureKeyLoop, List.findSome?, hv, ih]
    | false =>
      have hs : strOrNone v = some v := by simp [strOrNone, hv]
      rw [List.map_cons, hs]
      cases hl : assocGetStr CLOSURE_LABELS v with
      | none => simp [closureKeyLoop, hv, hl, List.findSome?, ih]
      | some l =>
        have := closure_label_ne_empty v l hl
        simp [closureKeyLoop, hv, hl, List.findSome?, this]

/-- Claim C5: the classifier depends only on the last record, follows
exactly the ordered precedence chain `status` > `final_status` >
`pattern` (an unmapped non-empty earlier field does not stop the
chain) with the `session_end` / `user` fallbacks, and classifies an
empty session as `"unknown"`. -/
theorem session_closure_spec_conformance :
    (∀ events : List Event,
      classify_session_closure events = closure_spec events) ∧
    (∀ e1 e2 : List Event, e1.getLast? = e2.getLast? →
      classify_session_closure e1 = classify_session_closure e2) ∧
    classify_session_closure ([] : List Event) = "unknown" := by
  refine ⟨fun events => ?_, fun e1 e2 h => ?_, rfl⟩
  · rw [classify_session_closure, closure_spec]
    cases events.getLast? with
    | none => rfl
    | some last =>
      dsimp only
      have hk := closureKeyLoop_eq_findSome
        [closureField last "status", closureField last "final_status",
         closureField last "pattern"]
      simp only [List.map_cons, List.map_nil] at hk
      rw [hk]
  · rw [classify_session_closure, classify_session_closure, h]

/-- Witness for C5: prepending a record with a different component does
not change the classification, which uses only the last record. -/
theorem session_closure_witness :
    classify_session_closure
        [⟨[("component", JVal.str "user")]⟩,
         ⟨[("payload", JVal.obj [("status", JVal.str "ok")])]⟩]
      = classify_session_closure
        [⟨[("payload", JVal.obj [("status", JVal.str "ok")])]⟩] :=
  session_closure_spec_conformance.2.1 _ _ rfl

/-!  C7: gap-count bookkeeping. -/

/-- Number of records whose latency accessor is defined. -/
def countWithLatency (evs : List Event) : Nat :=
  evs.countP (fun ev => ev.latency_ms.isSome)

/-- With a pending previous latency, each defined latency yields one
gap. -/
theorem latencyGapsAux_length_some (evs : List Event) :
    ∀ p : ℚ, (latencyGapsAux evs (some p)).length = countWithLatency evs := by
  induction evs with
  | nil => intro p; rfl
  | cons ev rest ih =>
    intro p
    cases hl : ev.latency_ms with
    | none => simp [latencyGapsAux, hl, countWithLatency, List.countP_cons, ih]
    | some lat => simp [latencyGapsAux, hl, countWithLatency, List.countP_cons, ih]

/-- From a fresh session start, the first defined latency yields no
gap. -/
theorem latencyGapsAux_length_none (evs : List Event) :
    (latencyGapsAux evs none).length = countWithLatency evs - 1 := by
  induction evs with
  | nil => rfl
  | cons ev rest ih =>
    cases hl : ev.latency_ms with
    | none => simp [latencyGapsAux, hl, countWithLatency, List.countP_cons, ih]
    | some lat =>
      simp [latencyGapsAux, hl, countWithLatency, List.countP_cons,
        latencyGapsAux_length_some]

/-- Claim C7: the number of gaps equals the sum over sessions of
`count_of_records_with_latency - 1` (truncated subtraction realizes the
`max(0, n - 1)` of the claim: a session with no or one defined latency
contributes 0); records without a defined latency do not break a
pair. -/
theorem relative_latency_gap_count (traces : Traces) :
    (compute_relative_latency_gaps traces).length
      = ((tracesValues traces).map (fun evs => countWithLatency evs - 1)).sum := by
  unfold compute_relative_latency_gaps
  induction tracesValues traces with
  | nil => rfl
  | cons evs rest ih =>
    simp [List.flatMap_cons, ih, latencyGapsAux_length_none]

/-!  C8: timestamp monotonicity. -/

/-- Number of adjacent descents in a timestamp sequence. -/
def descentCount (ts : List Nat) : Nat :=
  (ts.zip ts.tail).countP (fun p => decide (p.2 < p.1))

/-- The loop with a previous parseable timestamp in hand counts the
descents of the sequence extended on the left by it. -/
theorem tsMonotonicityAux_some (evs : List Event) :
    ∀ (p : Nat) (v : Nat), tsMonotonicityAux evs (some p) v
      = v + descentCount (p :: evs.filterMap Event.timestamp) := by
  induction evs with
  | nil => intro p v; simp [tsMonotonicityAux, descentCount]
  | cons ev rest ih =>
    intro p v
    cases ht : ev.timestamp with
    | none => simp [tsMonotonicityAux, ht, List.filterMap_cons, ih]
    | some t =>
      simp only [tsMonotonicityAux, ht, List.filterMap_cons, ih]
      by_cases hlt : t < p
      · simp [descentCount, List.zip_cons_cons, List.countP_cons, hlt] <;> omega
      · simp [descentCount, List.zip_cons_cons, List.countP_cons, hlt] <;> omega

/-- The loop from scratch counts the descents of the parseable
subsequence. -/
theorem tsMonotonicityAux_none (evs : List Event) :
    ∀ v : Nat, tsMonotonicityAux evs none v
      = v + descentCount (evs.filterMap Event.timestamp) := by
  induction evs with
  | nil => intro v; simp [tsMonotonicityAux, descentCount]
  | cons ev rest ih =>
    intro v
    cases ht : ev.timestamp with
    | none => simp [tsMonotonicityAux, ht, List.filterMap_cons, ih]
    | some t =>
      simp [tsMonotonicityAux, ht, List.filterMap_cons, tsMonotonicityAux_some]

/-- Claim C8: the check counts exactly the adjacent descents of the
parseable-timestamp subsequence (unparseable timestamps are skipped
without counting or resetting the baseline); the three-record example
`10:00:00, 10:00:05, 09:59:59` reports exactly one violation, and an
all-unparseable session reports zero. -/
theorem timestamp_monotonicity_characterization :
    (∀ events : List Event,
      check_timestamp_monotonicity events
        = (descentCount (events.filterMap Event.timestamp) == 0,
           descentCount (events.filterMap Event.timestamp))) ∧
    check_timestamp_monotonicity
        [⟨[("timestamp", JVal.str "2025-01-01T10:00:00Z")]⟩,
         ⟨[("timestamp", JVal.str "2025-01-01T10:00:05Z")]⟩,
         ⟨[("timestamp", JVal.str "2025-01-01T09:59:59Z")]⟩]
      = (false, 1) ∧
    check_timestamp_monotonicity
        [⟨[("timestamp", JVal.str "not-a-timestamp")]⟩,
         ⟨[("timestamp", JVal.null)]⟩,
         ⟨[("timestamp", JVal.str "2025-13-40T99:99:99")]⟩]
      = (true, 0) := by
  refine ⟨fun events => ?_, by decide, by decide⟩
  rw [check_timestamp_monotonicity, tsMonotonicityAux_none]
  simp

/-!  C1: the loader's cap semantics. -/

/-- Claim C1, counterexample: two lines with distinct trace ids and
`max_sessions = 1`.  The claim predicts the record introducing the
second distinct trace id (`"b"`) is still appended, making the distinct
count 2; the code `break`s *before* `events.append(ev)`, so the output
holds only the `"a"` record and exactly 1 distinct session. -/
theorem load_events_cap_partial_session_refuted :
    load_events
        [some [("trace_id", JVal.str "a")], some [("trace_id", JVal.str "b")]]
        (some 1)
      = [⟨[("trace_id", JVal.str "a")]⟩] ∧
    distinctTraceIds
        (load_events
          [some [("trace_id", JVal.str "a")], some [("trace_id", JVal.str "b")]]
          (some 1))
      = ["a"] :=
  ⟨rfl, by decide⟩

/-- The loader loop never lets the set of distinct non-empty trace ids
of its output, together with the `seen` set it carries, exceed the
cap. -/
theorem loadEventsAux_card_le (n : Nat) (lines : List Line) :
    ∀ seen : List String, seen.Nodup → seen.length ≤ n →
      ((tidList (loadEventsAux lines (some n) seen)).toFinset ∪ seen.toFinset).card ≤ n := by
  induction lines with
  | nil =>
    intro seen hnd hlen
    simp only [loadEventsAux, tidList, List.map_nil, List.filter_nil,
      List.toFinset_nil, Finset.empty_union]
    exact le_trans (List.toFinset_card_le seen) hlen
  | cons line rest ih =>
    intro seen hnd hlen
    cases line with
    | none => exact ih seen hnd hlen
    | some obj =>
      rw [loadEventsAux]
      by_cases hempty : Event.trace_id ⟨obj⟩ = ""
      · rw [if_pos (by simp [hempty])]
        have htid : tidList (⟨obj⟩ :: loadEventsAux rest (some n) seen)
            = tidList (loadEventsAux rest (some n) seen) := by
          simp [tidList, hempty]
        rw [htid]
        exact ih seen hnd hlen
      · rw [if_neg (by simp [hempty])]
        by_cases hmem : Event.trace_id ⟨obj⟩ ∈ seen
        · have hseen : insertSeen seen (Event.trace_id ⟨obj⟩) = seen := by
            simp [insertSeen, hmem]
          rw [hseen]
          have hnb : ¬ n < seen.length := not_lt.mpr hlen
          dsimp only
          rw [if_neg hnb]
          have htid : tidList (⟨obj⟩ :: loadEventsAux rest (some n) seen)
              = Event.trace_id ⟨obj⟩ :: tidList (loadEventsAux rest (some n) seen) := by
            simp [tidList, hempty]
          rw [htid]
          have hsub : (Event.trace_id ⟨obj⟩ ::
                tidList (loadEventsAux rest (some n) seen)).toFinset ∪ seen.toFinset
              ⊆ (tidList (loadEventsAux rest (some n) seen)).toFinset ∪ seen.toFinset := by
            intro x hx
            simp only [List.toFinset_cons, Finset.mem_union, Finset.mem_insert,
              List.mem_toFinset] at hx ⊢
            rcases hx with (rfl | hx) | hx
            · right; exact hmem
            · left; exact hx
            · right; exact hx
          exact le_trans (Finset.card_le_card hsub) (ih seen hnd hlen)
        · have hseen : insertSeen seen (Event.trace_id ⟨obj⟩)
              = Event.trace_id ⟨obj⟩ :: seen := by
            simp [insertSeen, hmem]
          rw [hseen]
          by_cases hcap : n < (Event.trace_id ⟨obj⟩ :: seen).length
          · dsimp only
            rw [if_pos hcap]
            simp only [tidList, List.map_nil, List.filter_nil, List.toFinset_nil,
              Finset.empty_union]
            exact le_trans (List.toFinset_card_le seen) hlen
          · dsimp only
            rw [if_neg hcap]
            have hlen' : (Event.trace_id ⟨obj⟩ :: seen).length ≤ n := not_lt.mp hcap
            have hnd' : (Event.trace_id ⟨obj⟩ :: seen).Nodup :=
              List.nodup_cons.mpr ⟨hmem, hnd⟩
            have htid : tidList (⟨obj⟩ :: loadEventsAux rest (some n)
                  (Event.trace_id ⟨obj⟩ :: seen))
                = Event.trace_id ⟨obj⟩ :: tidList (loadEventsAux rest (some n)
                  (Event.trace_id ⟨obj⟩ :: seen)) := by
              simp [tidList, hempty]
            rw [htid]
            have heq : (Event.trace_id ⟨obj⟩ ::
                  tidList (loadEventsAux rest (some n) (Event.trace_id ⟨obj⟩ :: seen))).toFinset
                  ∪ seen.toFinset
                = (tidList (loadEventsAux rest (some n)
                    (Event.trace_id ⟨obj⟩ :: seen))).toFinset
                  ∪ (Event.trace_id ⟨obj⟩ :: seen).toFinset := by
              simp only [List.toFinset_cons]
              rw [Finset.insert_union, Finset.union_insert]
            rw [heq]
            exact ih _ hnd' hlen'

/-- Claim C1, amended: `load_events` stops *before* appending the
record that causes the `(N+1)`-th distinct non-empty `trace_id` to
appear, so the returned list never contains a partial capping session:
its distinct non-empty trace-id count is at most `N`. -/
theorem load_events_distinct_sessions_le_cap (lines : List Line) (n : Nat) :
    (distinctTraceIds (load_events lines (some n))).length ≤ n := by
  have h := loadEventsAux_card_le n lines [] List.nodup_nil (Nat.zero_le n)
  simp only [List.toFinset_nil, Finset.union_empty] at h
  rw [distinctTraceIds, ← List.card_toFinset, load_events]
  exact h

/-!  C9: the `simple_correction_loop` generator through the metrics. -/

/-- Folding the grouper over records that all share one trace id only
ever extends that single group. -/
theorem group_fold_const (t : String) (evs : List Event) :
    ∀ pre : List Event, (∀ e ∈ evs, e.trace_id = t) →
      evs.foldl (fun acc ev => insertGroup acc ev.trace_id ev) [(t, pre)]
        = [(t, pre ++ evs)] := by
  induction evs with
  | nil => intro pre _; simp
  | cons ev rest ih =>
    intro pre h
    have ht : ev.trace_id = t := h ev (List.mem_cons_self ev rest)
    rw [List.foldl_cons]
    have hins : insertGroup [(t, pre)] ev.trace_id ev = [(t, pre ++ [ev])] := by
      simp [insertGroup, ht]
    rw [hins, ih (pre ++ [ev]) (fun e he => h e (List.mem_cons_of_mem ev he))]
    simp

/-- A nonempty record list with a constant trace id groups into a
single session. -/
theorem group_by_trace_const (t : String) (ev : Event) (rest : List Event)
    (h : ∀ e ∈ ev :: rest, e.trace_id = t) :
    group_by_trace (ev :: rest) = [(t, ev :: rest)] := by
  rw [group_by_trace, List.foldl_cons]
  have ht : ev.trace_id = t := h ev (List.mem_cons_self ev rest)
  have hins : insertGroup [] ev.trace_id ev = [(t, [ev])] := by
    simp [insertGroup, ht]
  rw [hins, group_fold_const t rest [ev] (fun e he => h e (List.mem_cons_of_mem ev he))]
  simp

/-- Claim C9: for every outcome of the random draws, the single
generated `simple_correction_loop` session, grouped and fed to the
metrics, yields `(with_relapse, with_correction) = (0, 1)` and exactly
one recovery episode of distance `4 - 2 = 2`. -/
theorem correction_loop_end_to_end (trace_idx : Nat) (draws : Nat → Int) :
    compute_post_correction_relapse_rate
        (group_by_trace (generatedLoopEvents trace_idx draws)) = (0, 1) ∧
    compute_recovery_turn_distances
        (group_by_trace (generatedLoopEvents trace_idx draws)) = [2] := by
  have hmem : ∀ e ∈ generatedLoopEvents trace_idx draws,
      e.trace_id = "loop_" ++ zfill 3 trace_idx := by
    intro e he
    simp only [generatedLoopEvents, generate_simple_correction_loop_session,
      List.map_cons, List.map_nil, List.mem_cons, List.not_mem_nil, or_false] at he
    rcases he with rfl | rfl | rfl | rfl | rfl | rfl | rfl <;> rfl
  have hg : group_by_trace (generatedLoopEvents trace_idx draws)
      = [("loop_" ++ zfill 3 trace_idx, generatedLoopEvents trace_idx draws)] := by
    exact group_by_trace_const _ _ _ (by simpa [generatedLoopEvents,
      generate_simple_correction_loop_session] using hmem)
  rw [hg]
  exact ⟨rfl, rfl⟩

end AIN
